import Mathlib

/-!
Verification development for the AISummary repository.

The two source files under study are `tools/generate_jsonl.py` (the JSONL
batch-request builder and size-aware splitter) and
`tools/extract_jsonl_responses.py` (the companion response extractor).
Python values that travel through `json.loads` / `json.dumps` are modelled
by the inductive type `Json` below; the Python value `None` is modelled by
`Json.null`.  Machine floats are outside the embedding: JSON numbers are
modelled exactly, integers by `Int` and non-integers by `Rat`, and the
decimal rendering of a non-integer is modelled only for numbers with a
finite decimal expansion (every number any claim touches is of that form).
-/

/-- A JSON value as produced by the Python `json` module: `null` is the
Python value `None`, `int` a Python `int`, `flt` a Python `float`
(represented exactly as a rational), and `obj` an insertion-ordered
Python `dict`. -/
inductive Json where
  | null : Json
  | bool (b : Bool) : Json
  | int (n : Int) : Json
  | flt (q : Rat) : Json
  | str (s : String) : Json
  | arr (elems : List Json) : Json
  | obj (fields : List (String × Json)) : Json

/-- The left brace character. -/
def lbrace : Char := Char.ofNat 123

/-- The right brace character. -/
def rbrace : Char := Char.ofNat 125

/-- The single-quote character. -/
def squote : Char := Char.ofNat 39

/-- The double-quote character. -/
def dquote : Char := Char.ofNat 34

/-- The backslash character. -/
def bslash : Char := Char.ofNat 92

/-- Hexadecimal digit for a value below 16, lower case as Python prints it. -/
def hexDigit (n : Nat) : Char :=
  if n < 10 then Char.ofNat (48 + n) else Char.ofNat (97 + (n - 10))

/-- How `json.dumps` (with `ensure_ascii=False`) escapes one character of a
string: double quote, backslash and the named control characters get a
two-character escape, other control characters a `\u00xx` escape, and every
remaining character passes through unchanged. -/
def jsonEscapeChar (c : Char) : List Char :=
  if c = dquote then [bslash, dquote]
  else if c = bslash then [bslash, bslash]
  else if c = Char.ofNat 10 then [bslash, Char.ofNat 110]
  else if c = Char.ofNat 13 then [bslash, Char.ofNat 114]
  else if c = Char.ofNat 9 then [bslash, Char.ofNat 116]
  else if c = Char.ofNat 8 then [bslash, Char.ofNat 98]
  else if c = Char.ofNat 12 then [bslash, Char.ofNat 102]
  else if c.toNat < 32 then
    [bslash, Char.ofNat 117, Char.ofNat 48, Char.ofNat 48,
     hexDigit (c.toNat / 16), hexDigit (c.toNat % 16)]
  else [c]

/-- A JSON string literal: opening quote, escaped characters, closing quote. -/
def jsonQuote (s : String) : String :=
  String.mk (dquote :: (s.data.flatMap jsonEscapeChar) ++ [dquote])

/-- Decimal digits of a natural number, most significant first. -/
def natDigits (n : Nat) : List Char :=
  (Nat.toDigits 10 n)

/-- The decimal rendering Python `repr` gives a float whose value has a
finite decimal expansion (the only floats this repository ever serializes:
CLI temperatures such as `0.5`).  For an integral value it appends `.0`;
otherwise it scales by the smallest adequate power of ten and places the
decimal point.  Values without a finite decimal expansion never arise from
the source and are given a fallback rendering. -/
def floatRepr (q : Rat) : String :=
  if q.den = 1 then toString q.num ++ ".0"
  else
    match (List.range 60).findSome?
        (fun i => if q.num.natAbs * 10 ^ (i + 1) % q.den = 0 then some (i + 1) else none) with
    | some k =>
      let scaled := q.num.natAbs * 10 ^ k / q.den
      let ds := natDigits scaled
      let ds := if ds.length < k + 1 then List.replicate (k + 1 - ds.length) (Char.ofNat 48) ++ ds else ds
      let sign := if q.num < 0 then "-" else ""
      sign ++ String.mk (ds.take (ds.length - k)) ++ "." ++ String.mk (ds.drop (ds.length - k))
    | none => toString q.num ++ "e" ++ toString q.den

mutual

/-- Compact serialization of a JSON value, exactly as
`json.dumps(x, ensure_ascii=False, separators=(",", ":"))` renders it. -/
def dumps : Json → String
  | Json.null => "null"
  | Json.bool true => "true"
  | Json.bool false => "false"
  | Json.int n => toString n
  | Json.flt q => floatRepr q
  | Json.str s => jsonQuote s
  | Json.arr elems => "[" ++ dumpsArr elems ++ "]"
  | Json.obj fields => "\x7b" ++ dumpsObj fields ++ "\x7d"

/-- Comma-separated serialization of array elements. -/
def dumpsArr : List Json → String
  | [] => ""
  | [x] => dumps x
  | x :: y :: rest => dumps x ++ "," ++ dumpsArr (y :: rest)

/-- Comma-separated serialization of object members, `"key":value` each. -/
def dumpsObj : List (String × Json) → String
  | [] => ""
  | [(k, v)] => jsonQuote k ++ ":" ++ dumps v
  | (k, v) :: m :: rest => jsonQuote k ++ ":" ++ dumps v ++ "," ++ dumpsObj (m :: rest)

end

/-- The JSON whitespace characters, as accepted between tokens by
`json.loads`. -/
def isJsonWs (c : Char) : Bool :=
  c = ' ' || c = Char.ofNat 9 || c = Char.ofNat 10 || c = Char.ofNat 13

/-- Drop leading JSON whitespace. -/
def skipWs : List Char → List Char
  | [] => []
  | c :: rest => if isJsonWs c then skipWs rest else c :: rest

/-- Value of one hexadecimal digit, either case. -/
def hexVal (c : Char) : Option Nat :=
  if 48 ≤ c.toNat ∧ c.toNat ≤ 57 then some (c.toNat - 48)
  else if 97 ≤ c.toNat ∧ c.toNat ≤ 102 then some (c.toNat - 87)
  else if 65 ≤ c.toNat ∧ c.toNat ≤ 70 then some (c.toNat - 55)
  else none

/-- Read exactly four hexadecimal digits, as in a `\uXXXX` escape. -/
def parseHex4 : List Char → Option (Nat × List Char)
  | a :: b :: c :: d :: rest =>
    match hexVal a, hexVal b, hexVal c, hexVal d with
    | some x, some y, some z, some w => some (((x * 16 + y) * 16 + z) * 16 + w, rest)
    | _, _, _, _ => none
  | _ => none

/-- Body of a JSON string literal, after the opening quote: processes
escapes, rejects raw control characters (`json.loads` is strict), pairs
UTF-16 surrogates from `\u` escapes.  A lone surrogate, which Python would
keep as an unpaired surrogate code unit, has no Lean `Char` and is treated
as a parse failure. -/
def parseStrBody (fuel : Nat) (acc : List Char) (cs : List Char) : Option (String × List Char) :=
  match fuel with
  | 0 => none
  | fuel + 1 =>
    match cs with
    | [] => none
    | c :: rest =>
      if c = dquote then some (String.mk acc.reverse, rest)
      else if c = bslash then
        match rest with
        | [] => none
        | e :: rest2 =>
          if e = dquote then parseStrBody fuel (dquote :: acc) rest2
          else if e = bslash then parseStrBody fuel (bslash :: acc) rest2
          else if e = Char.ofNat 47 then parseStrBody fuel (Char.ofNat 47 :: acc) rest2
          else if e = 'b' then parseStrBody fuel (Char.ofNat 8 :: acc) rest2
          else if e = 'f' then parseStrBody fuel (Char.ofNat 12 :: acc) rest2
          else if e = 'n' then parseStrBody fuel (Char.ofNat 10 :: acc) rest2
          else if e = 'r' then parseStrBody fuel (Char.ofNat 13 :: acc) rest2
          else if e = 't' then parseStrBody fuel (Char.ofNat 9 :: acc) rest2
          else if e = 'u' then
            match parseHex4 rest2 with
            | none => none
            | some (n, rest3) =>
              if 55296 ≤ n ∧ n ≤ 56319 then
                match rest3 with
                | u :: v :: rest4 =>
                  if u = bslash ∧ v = 'u' then
                    match parseHex4 rest4 with
                    | some (m, rest5) =>
                      if 56320 ≤ m ∧ m ≤ 57343 then
                        parseStrBody fuel
                          (Char.ofNat (65536 + (n - 55296) * 1024 + (m - 56320)) :: acc) rest5
                      else none
                    | none => none
                  else none
                | _ => none
              else if 56320 ≤ n ∧ n ≤ 57343 then none
              else parseStrBody fuel (Char.ofNat n :: acc) rest3
          else none
      else if c.toNat < 32 then none
      else parseStrBody fuel (c :: acc) rest

/-- Split off the leading run of decimal digits. -/
def spanDigits : List Char → List Char × List Char
  | [] => ([], [])
  | c :: rest =>
    if c.isDigit then
      let (ds, r) := spanDigits rest
      (c :: ds, r)
    else ([], c :: rest)

/-- Numeric value of a digit run. -/
def digitsToNat (ds : List Char) : Nat :=
  ds.foldl (fun a c => a * 10 + (c.toNat - 48)) 0

/-- A JSON number starting at the given characters.  A number without a
fraction or exponent is a Python `int`; any other number is a Python
`float`, whose exact value this model keeps as a rational. -/
def parseNumber (cs : List Char) : Option (Json × List Char) :=
  let (neg, cs1) :=
    match cs with
    | c :: rest => if c = '-' then (true, rest) else (false, cs)
    | [] => (false, [])
  match spanDigits cs1 with
  | ([], _) => none
  | (ds, rest) =>
    if 1 < ds.length ∧ ds.head? = some '0' then none
    else
      let (fds, rest2) :=
        match rest with
        | d :: r => if d = '.' then spanDigits r else ([], rest)
        | [] => ([], rest)
      if rest.head? = some '.' ∧ fds = [] then none
      else
        let hasFrac := rest.head? = some '.'
        let (hasExp, expNeg, eds, rest3) :=
          match rest2 with
          | e :: r =>
            if e = 'e' ∨ e = 'E' then
              match r with
              | s :: r2 =>
                if s = '+' then let (eds, r3) := spanDigits r2; (true, false, eds, r3)
                else if s = '-' then let (eds, r3) := spanDigits r2; (true, true, eds, r3)
                else let (eds, r3) := spanDigits r; (true, false, eds, r3)
              | [] => (true, false, [], r)
            else (false, false, [], rest2)
          | [] => (false, false, [], rest2)
        if hasExp ∧ eds = [] then none
        else if ¬hasFrac ∧ ¬hasExp then
          let v : Int := Int.ofNat (digitsToNat ds)
          some (Json.int (if neg then -v else v), rest)
        else
          let mant : Nat := digitsToNat ds * 10 ^ fds.length + digitsToNat fds
          let base : Rat := (mant : Rat) / ((10 : Rat) ^ fds.length)
          let e := digitsToNat eds
          let scaled : Rat := if expNeg then base / ((10 : Rat) ^ e) else base * ((10 : Rat) ^ e)
          some (Json.flt (if neg then -scaled else scaled), rest3)

/-- Consume an expected token such as `true`. -/
def stripToken (tok : List Char) (cs : List Char) : Option (List Char) :=
  if cs.take tok.length = tok then some (cs.drop tok.length) else none

/-- Store a key in an insertion-ordered dictionary: an existing key keeps
its position and gets the new value, a new key is appended, exactly as a
Python `dict` behaves. -/
def insertField (fs : List (String × Json)) (k : String) (v : Json) : List (String × Json) :=
  match fs with
  | [] => [(k, v)]
  | (k0, v0) :: rest => if k0 = k then (k0, v) :: rest else (k0, v0) :: insertField rest k v

mutual

/-- One JSON value, recursive descent with explicit fuel.  The `NaN` and
`Infinity` extensions Python accepts have no exact rational value and are
parse failures here. -/
def parseValue : Nat → List Char → Option (Json × List Char)
  | 0, _ => none
  | fuel + 1, cs =>
    match skipWs cs with
    | [] => none
    | c :: rest =>
      if c = dquote then
        match parseStrBody (rest.length + 1) [] rest with
        | some (s, r) => some (Json.str s, r)
        | none => none
      else if c = lbrace then parseObjItems fuel rest
      else if c = '[' then parseArrItems fuel rest
      else if c = 't' then
        (stripToken ['r', 'u', 'e'] rest).map (fun r => (Json.bool true, r))
      else if c = 'f' then
        (stripToken ['a', 'l', 's', 'e'] rest).map (fun r => (Json.bool false, r))
      else if c = 'n' then
        (stripToken ['u', 'l', 'l'] rest).map (fun r => (Json.null, r))
      else if c = '-' ∨ c.isDigit then parseNumber (c :: rest)
      else none

/-- Array items after the opening bracket, up to and past the closing one. -/
def parseArrItems : Nat → List Char → Option (Json × List Char)
  | 0, _ => none
  | fuel + 1, cs =>
    match skipWs cs with
    | c :: rest =>
      if c = ']' then some (Json.arr [], rest)
      else
        match parseArrLoop fuel [] (c :: rest) with
        | some (elems, r) => some (Json.arr elems, r)
        | none => none
    | [] => none

/-- Comma-separated array items, accumulating in order. -/
def parseArrLoop : Nat → List Json → List Char → Option (List Json × List Char)
  | 0, _, _ => none
  | fuel + 1, acc, cs =>
    match parseValue fuel cs with
    | none => none
    | some (v, r) =>
      match skipWs r with
      | c :: rest =>
        if c = ',' then parseArrLoop fuel (acc ++ [v]) rest
        else if c = ']' then some (acc ++ [v], rest)
        else none
      | [] => none

/-- Object members after the opening brace.  Members are kept in insertion
order; a repeated key overwrites the stored value in place, as a Python
`dict` does. -/
def parseObjItems : Nat → List Char → Option (Json × List Char)
  | 0, _ => none
  | fuel + 1, cs =>
    match skipWs cs with
    | c :: rest =>
      if c = rbrace then some (Json.obj [], rest)
      else
        match parseObjLoop fuel [] (c :: rest) with
        | some (fields, r) => some (Json.obj fields, r)
        | none => none
    | [] => none

/-- Comma-separated object members. -/
def parseObjLoop : Nat → List (String × Json) → List Char →
    Option (List (String × Json) × List Char)
  | 0, _, _ => none
  | fuel + 1, acc, cs =>
    match skipWs cs with
    | c :: rest =>
      if c = dquote then
        match parseStrBody (rest.length + 1) [] rest with
        | none => none
        | some (k, r) =>
          match skipWs r with
          | d :: r2 =>
            if d = ':' then
              match parseValue fuel r2 with
              | none => none
              | some (v, r3) =>
                match skipWs r3 with
                | e :: r4 =>
                  if e = ',' then parseObjLoop fuel (insertField acc k v) r4
                  else if e = rbrace then some (insertField acc k v, r4)
                  else none
                | [] => none
            else none
          | [] => none
      else none
    | [] => none

end

/-- The Python `json.loads` applied to a string: one JSON value with
nothing but whitespace around it; anything else raises, modelled as
`none`. -/
def pyLoads (s : String) : Option Json :=
  match parseValue (2 * s.length + 4) s.data with
  | some (v, rest) => if skipWs rest = [] then some v else none
  | none => none

/-- Python truthiness of a JSON-decoded value: `None`, `False`, numeric
zero, and empty strings, lists and dicts are falsy. -/
def pyTruthy : Json → Bool
  | Json.null => false
  | Json.bool b => b
  | Json.int n => n != 0
  | Json.flt q => q != 0
  | Json.str s => s ≠ ""
  | Json.arr elems => !elems.isEmpty
  | Json.obj fields => !fields.isEmpty

mutual

/-- Python `repr` of a JSON-decoded value: `None`, `True`, `False`,
numbers, single-quoted strings, and bracketed containers with `", "` and
`": "` separators.  Escaping inside the quoted form of a string is not
modelled (no claim feeds a string needing it through `repr`). -/
def pyRepr : Json → String
  | Json.null => "None"
  | Json.bool true => "True"
  | Json.bool false => "False"
  | Json.int n => toString n
  | Json.flt q => floatRepr q
  | Json.str s => String.mk [squote] ++ s ++ String.mk [squote]
  | Json.arr elems => "[" ++ pyReprArr elems ++ "]"
  | Json.obj fields => "\x7b" ++ pyReprObj fields ++ "\x7d"

/-- Elements of a Python list `repr`. -/
def pyReprArr : List Json → String
  | [] => ""
  | [x] => pyRepr x
  | x :: y :: rest => pyRepr x ++ ", " ++ pyReprArr (y :: rest)

/-- Members of a Python dict `repr`. -/
def pyReprObj : List (String × Json) → String
  | [] => ""
  | [(k, v)] => String.mk [squote] ++ k ++ String.mk [squote] ++ ": " ++ pyRepr v
  | (k, v) :: m :: rest =>
    String.mk [squote] ++ k ++ String.mk [squote] ++ ": " ++ pyRepr v ++ ", " ++
      pyReprObj (m :: rest)

end

/-- Python `str` of a JSON-decoded value: the string itself for a string,
`repr` for everything else. -/
def pyStr : Json → String
  | Json.str s => s
  | v => pyRepr v

/-- The Python format `f"i:05d"` used for `custom_id`: the decimal digits
of `i`, left-padded with zeros to width five (wider numbers are not
padded). -/
def format05 (i : Nat) : String :=
  let s := toString i
  String.mk (List.replicate (5 - s.length) (Char.ofNat 48)) ++ s

/-- The Python format `f"n:06d"` used for the extractor row fallback. -/
def format06 (n : Nat) : String :=
  let s := toString n
  String.mk (List.replicate (6 - s.length) (Char.ofNat 48)) ++ s

/-!
The size-aware splitter (`JSONLGenerator.save_jsonl_file`).

The source keeps the three limits as class constants; the specification
lists them as configurable with those values as defaults, so the embedding
takes them as a parameter and `defaultLimits` holds the source values.
Writing to disk is split out of the loop: a sealed batch is recorded as a
pair of its output file name and its record list, and the success of the
physical write (the `try` in `_write_jsonl_file`, whose result does not
influence the loop) is decided by a `writeOk` oracle where the pipeline
model needs it.
-/

/-- Emptiness of a list of JSON values is decidable outright. -/
instance decJsonListNil (l : List Json) : Decidable (l = []) :=
  match l with
  | [] => Decidable.isTrue rfl
  | _ :: _ => Decidable.isFalse (by simp)

/-- The three limits of the Aliyun batch JSONL format. -/
structure Limits where
  maxRequestsPerFile : Nat
  maxFileSizeBytes : Nat
  maxLineSizeBytes : Nat

/-- The constants of `JSONLGenerator`: 50000 requests, 500 MiB per file,
6 MiB per line. -/
def defaultLimits : Limits :=
  { maxRequestsPerFile := 50000
    maxFileSizeBytes := 500 * 1024 * 1024
    maxLineSizeBytes := 6 * 1024 * 1024 }

/-- `JSONLGenerator.validate_request_size`: the UTF-8 byte length of the
serialized request, without any separator, must not exceed
`MAX_LINE_SIZE_BYTES`. -/
def validate_request_size (L : Limits) (request_json : String) : Bool :=
  ¬(request_json.utf8ByteSize > L.maxLineSizeBytes)

/-- Output file naming in `_write_jsonl_file`: the first file is
`base.jsonl`, file `index ≥ 2` is `base_partindex.jsonl`. -/
def outputFilename (base : String) (index : Nat) : String :=
  if index > 1 then base ++ "_part" ++ toString index ++ ".jsonl"
  else base ++ ".jsonl"

/-- Loop state of `save_jsonl_file`: sealed files so far, the accumulating
request list with its running byte size, and the next file index. -/
structure SplitState where
  outputFiles : List (String × List Json)
  current : List Json
  currentSize : Nat
  fileIndex : Nat

/-- Seal the accumulating batch: emit it under the current file name,
start a fresh empty batch, advance the file index. -/
def sealState (base : String) (st : SplitState) : SplitState :=
  { outputFiles := st.outputFiles ++ [(outputFilename base st.fileIndex, st.current)]
    current := []
    currentSize := 0
    fileIndex := st.fileIndex + 1 }

/-- One iteration of the loop in `save_jsonl_file`: serialize the request,
skip it if oversized, otherwise seal the current batch first when the
request count or cumulative size limit would be crossed and the batch is
non-empty, then append the request. -/
def saveStep (L : Limits) (base : String) (st : SplitState) (request : Json) : SplitState :=
  let request_json := dumps request
  let request_size := request_json.utf8ByteSize + 1
  if ¬(validate_request_size L request_json) then st
  else
    let st :=
      if (st.current.length ≥ L.maxRequestsPerFile ∨
          st.currentSize + request_size > L.maxFileSizeBytes) ∧ st.current ≠ [] then
        sealState base st
      else st
    { st with
      current := st.current ++ [request]
      currentSize := st.currentSize + request_size }

/-- Final flush of `save_jsonl_file`: a non-empty leftover batch becomes
one more sealed file. -/
def flushState (base : String) (st : SplitState) : List (String × List Json) :=
  if st.current ≠ [] then
    st.outputFiles ++ [(outputFilename base st.fileIndex, st.current)]
  else st.outputFiles

/-- `JSONLGenerator.save_jsonl_file`, the `split` operation of the
specification: feed the requests through the loop from the empty state and
flush.  Each sealed batch is returned with its output file name. -/
def save_jsonl_file (L : Limits) (requests : List Json) (base : String) :
    List (String × List Json) :=
  flushState base (requests.foldl (saveStep L base) ⟨[], [], 0, 1⟩)

/-- The serialized size the specification assigns a record: compact
encoding plus one separator byte. -/
def reqSize (r : Json) : Nat := (dumps r).utf8ByteSize + 1

/-- Cumulative serialized size of a batch. -/
def batchBytes (rs : List Json) : Nat := (rs.map reqSize).sum

/-!
The request builder (`JSONLGenerator.create_request_object` and the loop
of `generate_jsonl`) and the surrounding pipeline.  File-system effects
are passed in explicitly: the walk result as a list of paths, file reading
as a partial map from path to content (`none` is a read failure), write
success as an oracle.  The temperature is a Python float; its exact value
is carried as a rational.
-/

/-- `JSONLGenerator.create_request_object`: the fixed request shape around
one custom id and one file content. -/
def create_request_object (model : String) (temperature : Rat) (system_prompt : String)
    (custom_id : String) (file_content : String) : Json :=
  Json.obj
    [("custom_id", Json.str custom_id),
     ("method", Json.str "POST"),
     ("url", Json.str "/v1/chat/completions"),
     ("body", Json.obj
       [("model", Json.str model),
        ("temperature", Json.flt temperature),
        ("messages", Json.arr
          [Json.obj [("role", Json.str "system"), ("content", Json.str system_prompt)],
           Json.obj [("role", Json.str "user"), ("content", Json.str file_content)]])])]

/-- The request-building loop of `generate_jsonl`, from the 1-based
enumeration index `i`: an unreadable file bumps the skip counter and is
passed over, a readable one contributes a request whose custom id is the
index formatted to five digits.  Returns the requests in order and the
skip count. -/
def buildGo (model : String) (temperature : Rat) (system_prompt : String)
    (readF : String → Option String) (i : Nat) : List String → List Json × Nat
  | [] => ([], 0)
  | p :: rest =>
    match readF p with
    | none =>
      let (rs, sk) := buildGo model temperature system_prompt readF (i + 1) rest
      (rs, sk + 1)
    | some content =>
      let (rs, sk) := buildGo model temperature system_prompt readF (i + 1) rest
      (create_request_object model temperature system_prompt (format05 i) content :: rs, sk)

/-- ASCII lower-casing of one character.  Python's `str.lower` lower-cases
the ASCII range exactly like this; the extension strings this repository
compares are ASCII. -/
def charToLower (c : Char) : Char :=
  if 65 ≤ c.toNat ∧ c.toNat ≤ 90 then Char.ofNat (c.toNat + 32) else c

/-- `str.lower` on an ASCII string. -/
def strToLower (s : String) : String := String.mk (s.data.map charToLower)

/-- Extension normalization in `JSONLGenerator.__init__`: lower case, with
a leading dot added when absent. -/
def normalizeExt (ext : String) : String :=
  if ext.data.take 1 = ['.'] then strToLower ext else "." ++ strToLower ext

/-- The extension part of `os.path.splitext`: within the part of the path
after the last slash, the suffix from the last dot, except that leading
dots of that file name never start an extension. -/
def splitextExt (p : String) : String :=
  let b := (p.data.reverse.takeWhile (fun c => c ≠ '/')).reverse
  let lead := b.takeWhile (fun c => c = '.')
  let rest := b.drop lead.length
  if rest.contains '.' then
    String.mk ('.' :: (rest.reverse.takeWhile (fun c => c ≠ '.')).reverse)
  else ""

/-- Lexicographic comparison of character lists by code point — exactly
how Python compares two strings. -/
def charListLe : List Char → List Char → Bool
  | [], _ => true
  | _ :: _, [] => false
  | a :: as, b :: bs =>
    if a.toNat < b.toNat then true
    else if b.toNat < a.toNat then false
    else charListLe as bs

/-- The string order Python sorts by. -/
def pyLe (s t : String) : Prop := charListLe s.data t.data = true

instance pyLeDecidable : DecidableRel pyLe := fun s t =>
  instDecidableEqBool (charListLe s.data t.data) true

/-- `JSONLGenerator.find_input_files`: keep the walked paths whose
lower-cased extension is among the configured ones, sorted. `os.walk`
enumeration order is platform-dependent, so it is an explicit input here;
Python's `sorted` (a stable sort under the code-point string order) is
modelled by insertion sort under the same order, which produces the same
list. -/
def find_input_files (walk : List String) (input_extensions : List String) : List String :=
  List.insertionSort pyLe
    (walk.filter (fun p => input_extensions.contains (strToLower (splitextExt p))))

/-- The CLI arguments of `generate_jsonl.py` after parsing: extensions
already split on commas and stripped. -/
structure GenArgs where
  model : String
  temperature : Rat
  system_prompt : String
  extensions : List String
  name : String

/-- The file-system environment one run of the generator observes. -/
structure GenEnv where
  dirExists : Bool
  walk : List String
  readF : String → Option String
  writeOk : String → Bool

/-- `JSONLGenerator.generate_jsonl`: scan, bail out with an empty list when
nothing matched or nothing was readable, otherwise build the requests and
save.  Each element of the result is the written path of a sealed file, or
`none` when its write failed — mirroring `_write_jsonl_file` returning
`None` which `save_jsonl_file` still appends to its result list. -/
def generate_jsonl (env : GenEnv) (args : GenArgs) : List (Option String) :=
  let input_files := find_input_files env.walk (args.extensions.map normalizeExt)
  if input_files.isEmpty then []
  else
    let built := buildGo args.model args.temperature args.system_prompt env.readF 1 input_files
    if built.1.isEmpty then []
    else
      (save_jsonl_file defaultLimits built.1 args.name).map
        (fun nb => if env.writeOk nb.1 then some nb.1 else none)

/-- `main` of `generate_jsonl.py`: exit 1 when the input directory does not
exist or the temperature lies outside [0.0, 2.0], otherwise exit 0 exactly
when `generate_jsonl` returned a non-empty (truthy) list. -/
def mainExit (env : GenEnv) (args : GenArgs) : Nat :=
  if ¬env.dirExists then 1
  else if ¬(0 ≤ args.temperature ∧ args.temperature ≤ 2) then 1
  else if ¬(generate_jsonl env args).isEmpty then 0 else 1

/-- The bytes `_write_jsonl_file` puts in one output file: each request
serialized compactly, a newline after every line. -/
def writtenFileBytes (rs : List Json) : String :=
  String.join (rs.map (fun r => dumps r ++ "\n"))

/-- The full build-then-split pipeline as a function from the observed
file system to the output files with their byte content. -/
def pipelineFiles (env : GenEnv) (args : GenArgs) : List (String × String) :=
  let input_files := find_input_files env.walk (args.extensions.map normalizeExt)
  let built := buildGo args.model args.temperature args.system_prompt env.readF 1 input_files
  (save_jsonl_file defaultLimits built.1 args.name).map
    (fun nb => (nb.1, writtenFileBytes nb.2))

/-!
The response extractor (`extract_jsonl_responses.py`).  Per-record
processing starts from the already-parsed record value; line parsing and
the surrounding directory handling are I/O.  A record that is not a JSON
object makes the Python `record.get` raise an uncaught `AttributeError`,
aborting the script: that is modelled by `processRecord` returning `none`.
-/

/-- Whether a JSON value is the Python `None` is decidable outright. -/
instance decJsonIsNull (j : Json) : Decidable (j = Json.null) :=
  match j with
  | Json.null => Decidable.isTrue rfl
  | Json.bool _ => Decidable.isFalse (fun h => Json.noConfusion h)
  | Json.int _ => Decidable.isFalse (fun h => Json.noConfusion h)
  | Json.flt _ => Decidable.isFalse (fun h => Json.noConfusion h)
  | Json.str _ => Decidable.isFalse (fun h => Json.noConfusion h)
  | Json.arr _ => Decidable.isFalse (fun h => Json.noConfusion h)
  | Json.obj _ => Decidable.isFalse (fun h => Json.noConfusion h)

/-- Dictionary probe used while walking candidate paths:
`isinstance(node, dict) and key in node`. -/
def dictLookup (node : Json) (key : String) : Option Json :=
  match node with
  | Json.obj fields => fields.lookup key
  | _ => none

/-- Walk one candidate path from `paths_to_try`, giving up at the first
missing key or non-dict node. -/
def resolvePath : Json → List String → Option Json
  | node, [] => some node
  | node, key :: rest =>
    match dictLookup node key with
    | some v => resolvePath v rest
    | none => none

/-- The `message.content` probe on the first choice:
`"message" in first`, the message is a dict, and it has a `content` key
(whose value may be anything, including `null`). -/
def msgContent (first : Json) : Option Json :=
  match dictLookup first "message" with
  | some (Json.obj ms) => ms.lookup "content"
  | _ => none

/-- The choices-shaped probe of `extract_content_from_record`: the node
must be a non-empty list; its first element yields `message.content`, else
its `text` field, else itself when it is a bare string. -/
def tryChoices (node : Json) : Option Json :=
  match node with
  | Json.arr (first :: _) =>
    (match msgContent first with
     | some v => some v
     | none =>
       match dictLookup first "text" with
       | some v => some v
       | none =>
         match first with
         | Json.str s => some (Json.str s)
         | _ => none)
  | _ => none

/-- First phase of `extract_content_from_record`: the four `paths_to_try`
in order, each resolved and probed as a choices list.  `some v` means the
loop broke with `raw = v` (possibly the Python `None`); `none` means no
path matched. -/
def rawPhase1 (record : Json) : Option Json :=
  [["response", "body", "choices"], ["response", "choices"], ["choices"], ["body", "choices"]].findSome?
    (fun p => (resolvePath record p).bind tryChoices)

/-- The fallback probe of the second phase: a dict node with a dict
`message` member that has a `content` key, else the node itself when it is
a bare string. -/
def tryNode (node : Json) : Option Json :=
  match node with
  | Json.obj fields =>
    (match fields.lookup "message" with
     | some (Json.obj ms) => ms.lookup "content"
     | _ => none)
  | Json.str s => some (Json.str s)
  | _ => none

/-- Second phase of `extract_content_from_record`: the three `try_paths`
fallbacks, entered only when the first phase left `raw` as the Python
`None`. -/
def rawPhase2 (record : Json) : Option Json :=
  [["response", "body"], ["response"], ([] : List String)].findSome?
    (fun p => (resolvePath record p).bind tryNode)

/-- The value bound to `raw` when `extract_content_from_record` reaches its
final block: the first phase result, with the second phase consulted when
that result is the Python `None`.  `Json.null` stands for `None`. -/
def locatedRaw (record : Json) : Json :=
  let raw1 := (rawPhase1 record).getD Json.null
  if raw1 = Json.null then (rawPhase2 record).getD Json.null else raw1

/-- `extract_content_from_record`: on a located string, try `json.loads`
on it — the Python code returns the parse result directly, so a string
parsing to `null` is indistinguishable from a parse failure; on a located
non-string, return it with its compact serialization; on nothing located,
return the Python `(None, None)`. -/
def extract_content_from_record (record : Json) : Json × Option String :=
  let raw := locatedRaw record
  match raw with
  | Json.null => (Json.null, none)
  | Json.str s => ((pyLoads s).getD Json.null, some s)
  | v => (v, some (dumps v))

/-- The JSON value `process_jsonl_file` writes for one record: the parsed
content object when it `is not None`, else the raw string wrapped as a
`content` field, else the whole record. -/
def writtenValue (record : Json) : Json :=
  let ext := extract_content_from_record record
  if ext.1 ≠ Json.null then ext.1
  else
    match ext.2 with
    | some s => Json.obj [("content", Json.str s)]
    | none => record

/-- The output file name `process_jsonl_file` chooses:
`record.get("custom_id") or record.get("id") or f"row line_no:06d"`,
coerced by `str`, with `.json` appended. -/
def chosenName (lineNo : Nat) (record : Json) : String :=
  let cid := (dictLookup record "custom_id").getD Json.null
  let chosen :=
    if pyTruthy cid then cid
    else
      let rid := (dictLookup record "id").getD Json.null
      if pyTruthy rid then rid
      else Json.str ("row" ++ format06 lineNo)
  pyStr chosen ++ ".json"

/-- Per-record behavior of `process_jsonl_file` on an already parsed line:
the produced file name and its JSON content, or `none` when the record is
not a dict and `record.get` raises, aborting the script. -/
def processRecord (lineNo : Nat) (record : Json) : Option (String × Json) :=
  match record with
  | Json.obj _ => some (chosenName lineNo record, writtenValue record)
  | _ => none

/-! Helper lemmas about the splitter loop. -/

theorem validate_true_iff (L : Limits) (s : String) :
    validate_request_size L s = true ↔ s.utf8ByteSize ≤ L.maxLineSizeBytes := by
  simp [validate_request_size]

theorem saveStep_skip (L : Limits) (base : String) (st : SplitState) (r : Json)
    (h : L.maxLineSizeBytes < (dumps r).utf8ByteSize) :
    saveStep L base st r = st := by
  have hv : validate_request_size L (dumps r) = false := by
    simp [validate_request_size]
    omega
  simp [saveStep, hv]

theorem saveStep_accept_seal (L : Limits) (base : String) (st : SplitState) (r : Json)
    (hv : (dumps r).utf8ByteSize ≤ L.maxLineSizeBytes)
    (hc : (L.maxRequestsPerFile ≤ st.current.length ∨
           L.maxFileSizeBytes < st.currentSize + reqSize r) ∧ st.current ≠ []) :
    saveStep L base st r =
      { outputFiles := st.outputFiles ++ [(outputFilename base st.fileIndex, st.current)]
        current := [r]
        currentSize := reqSize r
        fileIndex := st.fileIndex + 1 } := by
  have hv2 : validate_request_size L (dumps r) = true := by
    simp [validate_request_size]
    omega
  simp only [saveStep, hv2]
  rw [if_neg (by simp), if_pos (by exact_mod_cast hc)]
  simp [sealState, reqSize]

theorem saveStep_accept_app (L : Limits) (base : String) (st : SplitState) (r : Json)
    (hv : (dumps r).utf8ByteSize ≤ L.maxLineSizeBytes)
    (hc : ¬((L.maxRequestsPerFile ≤ st.current.length ∨
           L.maxFileSizeBytes < st.currentSize + reqSize r) ∧ st.current ≠ [])) :
    saveStep L base st r =
      { st with current := st.current ++ [r], currentSize := st.currentSize + reqSize r } := by
  have hv2 : validate_request_size L (dumps r) = true := by
    simp [validate_request_size]
    omega
  simp only [saveStep, hv2]
  rw [if_neg (by simp), if_neg (by exact_mod_cast hc)]
  simp [reqSize]

/-- All records held by a list of sealed batches, in order. -/
def joinedRecords (out : List (String × List Json)) : List Json :=
  (out.map Prod.snd).flatten

theorem foldl_saveStep_filter (L : Limits) (base : String) :
    ∀ (recs : List Json) (st : SplitState),
    recs.foldl (saveStep L base) st =
      (recs.filter (fun r => validate_request_size L (dumps r))).foldl (saveStep L base) st
  | [], _ => rfl
  | r :: rest, st => by
    by_cases hv : (dumps r).utf8ByteSize ≤ L.maxLineSizeBytes
    · have hv2 : validate_request_size L (dumps r) = true := by
        simp [validate_request_size]
        omega
      simp only [List.foldl_cons, List.filter_cons, hv2, if_pos]
      exact foldl_saveStep_filter L base rest (saveStep L base st r)
    · have hv2 : validate_request_size L (dumps r) = false := by
        simp [validate_request_size]
        omega
      simp only [List.foldl_cons, List.filter_cons, hv2, if_neg, Bool.false_eq_true,
        if_false]
      rw [saveStep_skip L base st r (by omega)]
      exact foldl_saveStep_filter L base rest st

theorem foldl_saveStep_join (L : Limits) (base : String) :
    ∀ (recs : List Json) (st : SplitState),
    joinedRecords (recs.foldl (saveStep L base) st).outputFiles ++
        (recs.foldl (saveStep L base) st).current =
      (joinedRecords st.outputFiles ++ st.current) ++
        recs.filter (fun r => validate_request_size L (dumps r))
  | [], st => by simp
  | r :: rest, st => by
    by_cases hv : (dumps r).utf8ByteSize ≤ L.maxLineSizeBytes
    · have hv2 : validate_request_size L (dumps r) = true := by
        simp [validate_request_size]
        omega
      simp only [List.foldl_cons, List.filter_cons, hv2, if_pos]
      by_cases hc : (L.maxRequestsPerFile ≤ st.current.length ∨
          L.maxFileSizeBytes < st.currentSize + reqSize r) ∧ st.current ≠ []
      · rw [saveStep_accept_seal L base st r hv hc,
          foldl_saveStep_join L base rest _]
        simp [joinedRecords]
      · rw [saveStep_accept_app L base st r hv hc,
          foldl_saveStep_join L base rest _]
        simp [joinedRecords]
    · have hv2 : validate_request_size L (dumps r) = false := by
        simp [validate_request_size]
        omega
      simp only [List.foldl_cons, List.filter_cons, hv2, Bool.false_eq_true, if_false]
      rw [saveStep_skip L base st r (by omega)]
      exact foldl_saveStep_join L base rest st

theorem joinedRecords_flush (base : String) (st : SplitState) :
    joinedRecords (flushState base st) = joinedRecords st.outputFiles ++ st.current := by
  by_cases h : st.current = [] <;> simp [flushState, joinedRecords, h]

/-- C1 (corrected): rejection by `split` is exactly
`validate_request_size` — the compact encoding alone, without the
separator byte, measured against MAX_LINE_SIZE_BYTES.  The concatenation
of all output batches is precisely the accepted records in input order, so
a rejected record appears in no batch, every accepted record appears, and
the output is literally the output on the input with the rejected records
absent. -/
theorem splitter_rejects_exactly_oversized (L : Limits) (base : String) (recs : List Json) :
    joinedRecords (save_jsonl_file L recs base) =
      recs.filter (fun r => validate_request_size L (dumps r)) ∧
    save_jsonl_file L recs base =
      save_jsonl_file L (recs.filter (fun r => validate_request_size L (dumps r))) base := by
  constructor
  · rw [save_jsonl_file, joinedRecords_flush, foldl_saveStep_join]
    simp [joinedRecords]
  · rw [save_jsonl_file, foldl_saveStep_filter, save_jsonl_file]

/-- C1 counterexample: with the per-line limit configured to 3 bytes, the
record `"A"` serializes to 3 bytes, so its serializedSize with the
trailing separator is 4, exceeding the limit; the claim demands rejection,
but `split` accepts the record into an output batch — the source compares
the size without the separator byte. -/
theorem splitter_line_threshold_cex :
    reqSize (Json.str "A") = 4 ∧
    (Limits.mk 50000 (500 * 1024 * 1024) 3).maxLineSizeBytes = 3 ∧
    save_jsonl_file (Limits.mk 50000 (500 * 1024 * 1024) 3) [Json.str "A"] "batch" =
      [("batch.jsonl", [Json.str "A"])] :=
  ⟨rfl, rfl, rfl⟩

/-- Greedy count-driven chunking: the shape the splitter loop takes when
only the request-count limit can bind.  `cur` is the batch being filled. -/
def chunkAcc (M : Nat) : List Json → List Json → List (List Json)
  | cur, [] => if cur = [] then [] else [cur]
  | cur, r :: rest =>
    if M ≤ cur.length then cur :: chunkAcc M [r] rest
    else chunkAcc M (cur ++ [r]) rest

theorem chunkAcc_ne_nil (M : Nat) :
    ∀ (recs cur : List Json), cur ≠ [] → chunkAcc M cur recs ≠ []
  | [], cur, h => by simp [chunkAcc, h]
  | r :: rest, cur, h => by
    by_cases hM : M ≤ cur.length
    · simp [chunkAcc, hM]
    · simp only [chunkAcc, if_neg hM]
      exact chunkAcc_ne_nil M rest (cur ++ [r]) (by simp)

theorem chunkAcc_flatten (M : Nat) :
    ∀ (recs cur : List Json), (chunkAcc M cur recs).flatten = cur ++ recs
  | [], cur => by
    by_cases h : cur = [] <;> simp [chunkAcc, h]
  | r :: rest, cur => by
    by_cases hM : M ≤ cur.length
    · simp [chunkAcc, hM, chunkAcc_flatten M rest [r]]
    · simp [chunkAcc, hM, chunkAcc_flatten M rest (cur ++ [r])]

theorem chunkAcc_length (M : Nat) (hM : 1 ≤ M) :
    ∀ (recs cur : List Json), cur.length ≤ M →
    (chunkAcc M cur recs).length = (cur.length + recs.length + (M - 1)) / M
  | [], cur, hc => by
    by_cases h : cur = []
    · subst h
      have h0 : (M - 1) / M = 0 := Nat.div_eq_of_lt (by omega)
      simp [chunkAcc, h0]
    · have h1 : 1 ≤ cur.length := List.length_pos.mpr h
      simp only [chunkAcc, if_neg h, List.length_singleton, List.length_nil, Nat.add_zero]
      rw [Nat.div_eq_of_lt_le (k := 1) (by omega) (by omega)]
  | r :: rest, cur, hc => by
    by_cases hM2 : M ≤ cur.length
    · have hcM : cur.length = M := le_antisymm hc hM2
      simp only [chunkAcc, if_pos hM2, List.length_cons]
      rw [chunkAcc_length M hM rest [r] (by simpa using hM)]
      simp only [List.length_singleton]
      rw [hcM]
      rw [show M + (rest.length + 1) + (M - 1) = (1 + rest.length + (M - 1)) + M by omega,
        Nat.add_div_right _ (by omega)]
    · simp only [chunkAcc, if_neg hM2, List.length_cons]
      rw [chunkAcc_length M hM rest (cur ++ [r])
        (by simp only [List.length_append, List.length_singleton]; omega)]
      simp only [List.length_append, List.length_singleton]
      congr 1
      omega

theorem chunkAcc_dropLast (M : Nat) (hM : 1 ≤ M) :
    ∀ (recs cur : List Json), cur.length ≤ M →
    ∀ b ∈ (chunkAcc M cur recs).dropLast, b.length = M
  | [], cur, _ => by
    by_cases h : cur = [] <;> simp [chunkAcc, h]
  | r :: rest, cur, hc => by
    by_cases hM2 : M ≤ cur.length
    · have hcM : cur.length = M := le_antisymm hc hM2
      simp only [chunkAcc, if_pos hM2]
      rw [List.dropLast_cons_of_ne_nil (chunkAcc_ne_nil M rest [r] (by simp))]
      intro b hb
      rcases List.mem_cons.mp hb with hb | hb
      · rw [hb, hcM]
      · exact chunkAcc_dropLast M hM rest [r] (by simpa using hM) b hb
    · simp only [chunkAcc, if_neg hM2]
      exact chunkAcc_dropLast M hM rest (cur ++ [r])
        (by simp only [List.length_append, List.length_singleton]; omega)

theorem foldl_saveStep_uniform (L : Limits) (base : String) (s : Nat)
    (hs : s ≤ L.maxLineSizeBytes) (hM : 1 ≤ L.maxRequestsPerFile)
    (hF : L.maxRequestsPerFile * (s + 1) ≤ L.maxFileSizeBytes) :
    ∀ (recs : List Json) (st : SplitState),
    (∀ r ∈ recs, (dumps r).utf8ByteSize = s) →
    st.currentSize = st.current.length * (s + 1) →
    st.current.length ≤ L.maxRequestsPerFile →
    (flushState base (recs.foldl (saveStep L base) st)).map Prod.snd =
      st.outputFiles.map Prod.snd ++ chunkAcc L.maxRequestsPerFile st.current recs
  | [], st, _, _, _ => by
    by_cases h : st.current = [] <;> simp [flushState, chunkAcc, h]
  | r :: rest, st, hu, hsz, hlen => by
    have hr : (dumps r).utf8ByteSize = s := hu r (by simp)
    have hrs : reqSize r = s + 1 := by simp [reqSize, hr]
    by_cases hM2 : L.maxRequestsPerFile ≤ st.current.length
    · have hcM : st.current.length = L.maxRequestsPerFile := le_antisymm hlen hM2
      have hne : st.current ≠ [] := List.length_pos.mp (by omega)
      rw [List.foldl_cons, saveStep_accept_seal L base st r (by omega) ⟨Or.inl hM2, hne⟩]
      rw [foldl_saveStep_uniform L base s hs hM hF rest _
        (fun x hx => hu x (by simp [hx])) (by simp [hrs]) (by simpa using hM)]
      simp only [chunkAcc, if_pos hM2, List.map_append]
      simp
    · have hc : ¬((L.maxRequestsPerFile ≤ st.current.length ∨
          L.maxFileSizeBytes < st.currentSize + reqSize r) ∧ st.current ≠ []) := by
        rintro ⟨h1 | h2, -⟩
        · exact hM2 h1
        · rw [hsz, hrs] at h2
          have hmul : (st.current.length + 1) * (s + 1) ≤ L.maxRequestsPerFile * (s + 1) :=
            Nat.mul_le_mul_right _ (by omega)
          have he : st.current.length * (s + 1) + (s + 1) =
              (st.current.length + 1) * (s + 1) := by ring
          omega
      rw [List.foldl_cons, saveStep_accept_app L base st r (by omega) hc]
      rw [foldl_saveStep_uniform L base s hs hM hF rest _
        (fun x hx => hu x (by simp [hx]))
        (by simp only [List.length_append, List.length_singleton, hsz, hrs]; ring)
        (by simp only [List.length_append, List.length_singleton]; omega)]
      simp only [chunkAcc, if_neg hM2]

/-- C2 (confirmed, with the configured request-count limit positive as in
every configuration the spec admits): on records of one uniform serialized
size that fits the per-line limit, with the cumulative-size limit never
binding, `split` emits ceil(N / MAX_REQUESTS_PER_FILE) batches, every
batch before the last holds exactly MAX_REQUESTS_PER_FILE records, and the
concatenation of all batches in file order is the input sequence. -/
theorem splitter_uniform_batches (L : Limits) (base : String) (recs : List Json) (s : Nat)
    (hM : 1 ≤ L.maxRequestsPerFile)
    (hN : L.maxRequestsPerFile < recs.length)
    (hu : ∀ r ∈ recs, (dumps r).utf8ByteSize = s)
    (hs : s ≤ L.maxLineSizeBytes)
    (hF : L.maxRequestsPerFile * (s + 1) ≤ L.maxFileSizeBytes) :
    (save_jsonl_file L recs base).length =
      (recs.length + (L.maxRequestsPerFile - 1)) / L.maxRequestsPerFile ∧
    (∀ b ∈ ((save_jsonl_file L recs base).map Prod.snd).dropLast,
      b.length = L.maxRequestsPerFile) ∧
    ((save_jsonl_file L recs base).map Prod.snd).flatten = recs := by
  have key : (save_jsonl_file L recs base).map Prod.snd =
      chunkAcc L.maxRequestsPerFile [] recs := by
    rw [save_jsonl_file,
      foldl_saveStep_uniform L base s hs hM hF recs ⟨[], [], 0, 1⟩ hu (by simp) (by simp)]
    simp
  refine ⟨?_, ?_, ?_⟩
  · calc (save_jsonl_file L recs base).length
        = ((save_jsonl_file L recs base).map Prod.snd).length := by simp
      _ = (chunkAcc L.maxRequestsPerFile [] recs).length := by rw [key]
      _ = (recs.length + (L.maxRequestsPerFile - 1)) / L.maxRequestsPerFile := by
            rw [chunkAcc_length _ hM recs [] (by simp)]
            simp
  · rw [key]
    exact chunkAcc_dropLast _ hM recs [] (by simp)
  · rw [key, chunkAcc_flatten]
    simp

/-- Witness for C2 at a concrete configuration: limit 2 requests per file,
five records of uniform serialized size 3, giving three batches of shapes
2, 2, 1. -/
theorem splitter_uniform_batches_witness :
    (save_jsonl_file (Limits.mk 2 10000 10000)
        [Json.str "A", Json.str "A", Json.str "A", Json.str "A", Json.str "A"] "batch").length =
      ([Json.str "A", Json.str "A", Json.str "A", Json.str "A", Json.str "A"].length + (2 - 1)) / 2 ∧
    (∀ b ∈ ((save_jsonl_file (Limits.mk 2 10000 10000)
        [Json.str "A", Json.str "A", Json.str "A", Json.str "A", Json.str "A"] "batch").map
          Prod.snd).dropLast, b.length = 2) ∧
    ((save_jsonl_file (Limits.mk 2 10000 10000)
        [Json.str "A", Json.str "A", Json.str "A", Json.str "A", Json.str "A"] "batch").map
          Prod.snd).flatten =
      [Json.str "A", Json.str "A", Json.str "A", Json.str "A", Json.str "A"] :=
  splitter_uniform_batches (Limits.mk 2 10000 10000) "batch"
    [Json.str "A", Json.str "A", Json.str "A", Json.str "A", Json.str "A"] 3
    (by decide) (by decide) (by decide) (by decide) (by decide)

theorem foldl_saveStep_noseal (L : Limits) (base : String) :
    ∀ (recs : List Json) (st : SplitState),
    (∀ r ∈ recs, (dumps r).utf8ByteSize ≤ L.maxLineSizeBytes) →
    st.current.length + recs.length ≤ L.maxRequestsPerFile →
    st.currentSize + batchBytes recs ≤ L.maxFileSizeBytes →
    recs.foldl (saveStep L base) st =
      { st with current := st.current ++ recs
                currentSize := st.currentSize + batchBytes recs }
  | [], st, _, _, _ => by simp [batchBytes]
  | r :: rest, st, hv, hlen, hsz => by
    have hvr := hv r (by simp)
    have hb : batchBytes (r :: rest) = reqSize r + batchBytes rest := by
      simp [batchBytes]
    have hc : ¬((L.maxRequestsPerFile ≤ st.current.length ∨
        L.maxFileSizeBytes < st.currentSize + reqSize r) ∧ st.current ≠ []) := by
      rintro ⟨h1 | h2, -⟩
      · simp only [List.length_cons] at hlen
        omega
      · rw [hb] at hsz
        omega
    rw [List.foldl_cons, saveStep_accept_app L base st r hvr hc,
      foldl_saveStep_noseal L base rest _ (fun x hx => hv x (by simp [hx]))
        (by dsimp only
            simp only [List.length_append, List.length_singleton, List.length_cons,
              List.length_nil] at hlen ⊢
            omega)
        (by dsimp only
            rw [hb] at hsz
            omega)]
    simp [hb, List.append_assoc, Nat.add_assoc]

/-- C3 (corrected): a non-empty record sequence, all of whose records pass
the per-line check, shorter than MAX_REQUESTS_PER_FILE and of total
serialized size below MAX_FILE_SIZE_BYTES, comes out of `split` as exactly
one batch, named with the base name, holding every record in input
order. -/
theorem splitter_single_batch (L : Limits) (base : String) (recs : List Json)
    (hne : recs ≠ [])
    (hlen : recs.length < L.maxRequestsPerFile)
    (hv : ∀ r ∈ recs, (dumps r).utf8ByteSize ≤ L.maxLineSizeBytes)
    (hsz : batchBytes recs < L.maxFileSizeBytes) :
    save_jsonl_file L recs base = [(base ++ ".jsonl", recs)] := by
  rw [save_jsonl_file,
    foldl_saveStep_noseal L base recs ⟨[], [], 0, 1⟩ hv
      (by simp only [List.length_nil, Nat.zero_add]; omega)
      (by simp only [Nat.zero_add]; omega)]
  simp [flushState, hne, outputFilename]

/-- Witness for C3: two small records, one batch out. -/
theorem splitter_single_batch_witness :
    save_jsonl_file defaultLimits [Json.str "A", Json.str "B"] "batch" =
      [("batch" ++ ".jsonl", [Json.str "A", Json.str "B"])] :=
  splitter_single_batch defaultLimits "batch" [Json.str "A", Json.str "B"]
    (by decide) (by decide) (by decide) (by decide)

/-- C3 counterexample: the claim as stated fails twice over.  The empty
sequence satisfies its hypotheses (length 0 is below the request limit and
total size 0 is below the file limit) yet `split` yields zero batches, not
one.  And with the per-line limit configured to 5 bytes, the single
record `"AAAAAA"` (8 encoded bytes) also satisfies the stated hypotheses,
yet is rejected by the per-line check, so again zero batches appear and
the record is in none of them. -/
theorem splitter_single_batch_cex :
    (save_jsonl_file defaultLimits [] "batch" = [] ∧
     ([] : List Json).length < defaultLimits.maxRequestsPerFile ∧
     batchBytes [] < defaultLimits.maxFileSizeBytes) ∧
    (save_jsonl_file (Limits.mk 50000 1000 5) [Json.str "AAAAAA"] "batch" = [] ∧
     [Json.str "AAAAAA"].length < (Limits.mk 50000 1000 5).maxRequestsPerFile ∧
     batchBytes [Json.str "AAAAAA"] < (Limits.mk 50000 1000 5).maxFileSizeBytes) :=
  ⟨⟨rfl, by decide, by decide⟩, ⟨rfl, by decide, by decide⟩⟩

theorem saveStep_names (L : Limits) (base : String) (st : SplitState) (r : Json)
    (h1 : st.fileIndex = st.outputFiles.length + 1)
    (h2 : st.outputFiles.map Prod.fst =
      (List.range st.outputFiles.length).map (fun i => outputFilename base (i + 1))) :
    (saveStep L base st r).fileIndex = (saveStep L base st r).outputFiles.length + 1 ∧
    (saveStep L base st r).outputFiles.map Prod.fst =
      (List.range (saveStep L base st r).outputFiles.length).map
        (fun i => outputFilename base (i + 1)) := by
  simp only [saveStep]
  split
  · exact ⟨h1, h2⟩
  · split
    · refine ⟨by simp [sealState, h1], ?_⟩
      simp only [sealState, List.map_append, List.length_append, List.length_singleton,
        List.range_succ, h2, List.map_map]
      simp [h1]
    · exact ⟨h1, h2⟩

theorem foldl_saveStep_names (L : Limits) (base : String) :
    ∀ (recs : List Json) (st : SplitState),
    st.fileIndex = st.outputFiles.length + 1 →
    (st.outputFiles.map Prod.fst =
      (List.range st.outputFiles.length).map (fun i => outputFilename base (i + 1))) →
    (recs.foldl (saveStep L base) st).fileIndex =
        (recs.foldl (saveStep L base) st).outputFiles.length + 1 ∧
    (recs.foldl (saveStep L base) st).outputFiles.map Prod.fst =
      (List.range (recs.foldl (saveStep L base) st).outputFiles.length).map
        (fun i => outputFilename base (i + 1))
  | [], _, h1, h2 => ⟨h1, h2⟩
  | r :: rest, st, h1, h2 => by
    rw [List.foldl_cons]
    have step := saveStep_names L base st r h1 h2
    exact foldl_saveStep_names L base rest _ step.1 step.2

/-- C4 (confirmed): the i-th sealed file of any run (1-based, in seal
order) is named `outputFilename base i`, which is the base name verbatim
with `.jsonl` for the first file and `base_partN.jsonl` for every later
one; and on the boundary instance — limit 2 requests, three equal-size
records — the run seals `batch.jsonl` with the first two records and
`batch_part2.jsonl` with the third. -/
theorem splitter_file_naming (L : Limits) (base : String) (recs : List Json) :
    ((save_jsonl_file L recs base).map Prod.fst =
      (List.range (save_jsonl_file L recs base).length).map
        (fun i => outputFilename base (i + 1))) ∧
    outputFilename base 1 = base ++ ".jsonl" ∧
    (∀ k : Nat, outputFilename base (k + 2) = base ++ "_part" ++ toString (k + 2) ++ ".jsonl") ∧
    save_jsonl_file (Limits.mk 2 1000000 1000000)
        [Json.str "A", Json.str "B", Json.str "C"] "batch" =
      [("batch.jsonl", [Json.str "A", Json.str "B"]),
       ("batch_part2.jsonl", [Json.str "C"])] := by
  refine ⟨?_, by simp [outputFilename], fun k => by simp [outputFilename], rfl⟩
  have main := foldl_saveStep_names L base recs ⟨[], [], 0, 1⟩ (by simp) (by simp)
  rw [save_jsonl_file]
  set st := recs.foldl (saveStep L base) ⟨[], [], 0, 1⟩ with hst
  by_cases h : st.current = []
  · simp only [flushState, if_neg (show ¬(st.current ≠ []) by simp [h])]
    exact main.2
  · simp only [flushState, if_pos h, List.map_append, List.length_append,
      List.length_singleton, List.range_succ, main.2, List.map_map]
    simp [main.1]

/-- The batch-bounds invariant of the splitter state: the accumulating
batch respects both limits, the byte counter is accurate, and every sealed
batch respects both limits. -/
def SplitInv (L : Limits) (st : SplitState) : Prop :=
  st.current.length ≤ L.maxRequestsPerFile ∧
  st.currentSize = batchBytes st.current ∧
  st.currentSize ≤ L.maxFileSizeBytes ∧
  ∀ b ∈ st.outputFiles.map Prod.snd,
    b.length ≤ L.maxRequestsPerFile ∧ batchBytes b ≤ L.maxFileSizeBytes

theorem saveStep_inv (L : Limits) (base : String) (st : SplitState) (r : Json)
    (hM : 1 ≤ L.maxRequestsPerFile)
    (hLF : L.maxLineSizeBytes + 1 ≤ L.maxFileSizeBytes)
    (h : SplitInv L st) : SplitInv L (saveStep L base st r) := by
  obtain ⟨hlen, hacc, hsz, hout⟩ := h
  by_cases hv : (dumps r).utf8ByteSize ≤ L.maxLineSizeBytes
  · have hr : reqSize r ≤ L.maxFileSizeBytes := by
      simp only [reqSize]
      omega
    by_cases hc : (L.maxRequestsPerFile ≤ st.current.length ∨
        L.maxFileSizeBytes < st.currentSize + reqSize r) ∧ st.current ≠ []
    · rw [saveStep_accept_seal L base st r hv hc]
      refine ⟨by simpa using hM, by simp [batchBytes], by simpa [batchBytes] using hr, ?_⟩
      intro b hb
      simp only [List.map_append, List.mem_append] at hb
      rcases hb with hb | hb
      · exact hout b hb
      · simp only [List.map_cons, List.map_nil, List.mem_singleton] at hb
        subst hb
        exact ⟨hlen, hacc ▸ hsz⟩
    · rw [saveStep_accept_app L base st r hv hc]
      refine ⟨?_, ?_, ?_, hout⟩
      · by_cases hcur : st.current = []
        · simp [hcur]
          omega
        · have : ¬(L.maxRequestsPerFile ≤ st.current.length ∨
              L.maxFileSizeBytes < st.currentSize + reqSize r) := fun habs => hc ⟨habs, hcur⟩
          simp only [List.length_append, List.length_singleton]
          omega
      · simp [batchBytes, hacc]
      · by_cases hcur : st.current = []
        · have hacc0 : st.currentSize = 0 := by
            rw [hcur] at hacc
            simpa [batchBytes] using hacc
          dsimp only
          omega
        · have : ¬(L.maxRequestsPerFile ≤ st.current.length ∨
              L.maxFileSizeBytes < st.currentSize + reqSize r) := fun habs => hc ⟨habs, hcur⟩
          dsimp only
          omega
  · rw [saveStep_skip L base st r (by omega)]
    exact ⟨hlen, hacc, hsz, hout⟩

theorem foldl_saveStep_inv (L : Limits) (base : String)
    (hM : 1 ≤ L.maxRequestsPerFile)
    (hLF : L.maxLineSizeBytes + 1 ≤ L.maxFileSizeBytes) :
    ∀ (recs : List Json) (st : SplitState),
    SplitInv L st → SplitInv L (recs.foldl (saveStep L base) st)
  | [], _, h => h
  | r :: rest, st, h =>
    foldl_saveStep_inv L base hM hLF rest _ (saveStep_inv L base st r hM hLF h)

/-- C5 (corrected): under every configuration with a positive request
limit and a file limit of at least one line plus its separator — which
includes the defaults — the accumulating batch after any number of
processed records, every sealed batch at that point, and every batch of
the final output satisfy both `length ≤ MAX_REQUESTS_PER_FILE` and
`cumulativeBytes ≤ MAX_FILE_SIZE_BYTES`. -/
theorem splitter_limits_invariant (L : Limits) (base : String) (recs : List Json) (i : Nat)
    (hM : 1 ≤ L.maxRequestsPerFile)
    (hLF : L.maxLineSizeBytes + 1 ≤ L.maxFileSizeBytes) :
    (((recs.take i).foldl (saveStep L base) ⟨[], [], 0, 1⟩).current.length ≤
        L.maxRequestsPerFile ∧
     batchBytes ((recs.take i).foldl (saveStep L base) ⟨[], [], 0, 1⟩).current ≤
        L.maxFileSizeBytes ∧
     ∀ b ∈ ((recs.take i).foldl (saveStep L base) ⟨[], [], 0, 1⟩).outputFiles.map Prod.snd,
       b.length ≤ L.maxRequestsPerFile ∧ batchBytes b ≤ L.maxFileSizeBytes) ∧
    ∀ b ∈ (save_jsonl_file L recs base).map Prod.snd,
      b.length ≤ L.maxRequestsPerFile ∧ batchBytes b ≤ L.maxFileSizeBytes := by
  have init : SplitInv L ⟨[], [], 0, 1⟩ :=
    ⟨by simp, by simp [batchBytes], by simp, by simp⟩
  obtain ⟨h1, h2, h3, h4⟩ := foldl_saveStep_inv L base hM hLF (recs.take i) _ init
  refine ⟨⟨h1, by rw [← h2]; exact h3, h4⟩, ?_⟩
  obtain ⟨g1, g2, g3, g4⟩ := foldl_saveStep_inv L base hM hLF recs _ init
  intro b hb
  rw [save_jsonl_file] at hb
  set stf := recs.foldl (saveStep L base) ⟨[], [], 0, 1⟩ with hstf
  by_cases h : stf.current = []
  · rw [flushState, if_neg (show ¬(stf.current ≠ []) by simp [h])] at hb
    exact g4 b hb
  · rw [flushState, if_pos h] at hb
    simp only [List.map_append, List.mem_append, List.map_cons, List.map_nil,
      List.mem_singleton] at hb
    rcases hb with hb | hb
    · exact g4 b hb
    · subst hb
      exact ⟨g1, by rw [← g2]; exact g3⟩

/-- Witness for C5 at the default limits on a one-record input, observed
after the first record. -/
theorem splitter_limits_invariant_witness :
    ((([Json.str "A"].take 1).foldl (saveStep defaultLimits "batch")
          ⟨[], [], 0, 1⟩).current.length ≤ defaultLimits.maxRequestsPerFile ∧
     batchBytes (([Json.str "A"].take 1).foldl (saveStep defaultLimits "batch")
          ⟨[], [], 0, 1⟩).current ≤ defaultLimits.maxFileSizeBytes ∧
     ∀ b ∈ (([Json.str "A"].take 1).foldl (saveStep defaultLimits "batch")
          ⟨[], [], 0, 1⟩).outputFiles.map Prod.snd,
       b.length ≤ defaultLimits.maxRequestsPerFile ∧
       batchBytes b ≤ defaultLimits.maxFileSizeBytes) ∧
    ∀ b ∈ (save_jsonl_file defaultLimits [Json.str "A"] "batch").map Prod.snd,
      b.length ≤ defaultLimits.maxRequestsPerFile ∧
      batchBytes b ≤ defaultLimits.maxFileSizeBytes :=
  splitter_limits_invariant defaultLimits "batch" [Json.str "A"] 1 (by decide) (by decide)

/-- C5 counterexample: the invariant does not hold for every configured
value of the limits.  With MAX_REQUESTS_PER_FILE = 0 the emitted batch
holds one record, exceeding the request limit; with MAX_FILE_SIZE_BYTES =
0 the emitted batch weighs four bytes, exceeding the size limit. -/
theorem splitter_limits_invariant_cex :
    (∃ b ∈ (save_jsonl_file (Limits.mk 0 1000 1000) [Json.str "A"] "batch").map Prod.snd,
       (Limits.mk 0 1000 1000).maxRequestsPerFile < b.length) ∧
    (∃ b ∈ (save_jsonl_file (Limits.mk 10 0 1000) [Json.str "A"] "batch").map Prod.snd,
       (Limits.mk 10 0 1000).maxFileSizeBytes < batchBytes b) :=
  ⟨⟨[Json.str "A"], List.mem_singleton.mpr rfl, by decide⟩,
   ⟨[Json.str "A"], List.mem_singleton.mpr rfl, by decide⟩⟩

theorem buildGo_cons_none (model : String) (temperature : Rat) (system_prompt : String)
    (readF : String → Option String) (i : Nat) (p : String) (rest : List String)
    (h : readF p = none) :
    buildGo model temperature system_prompt readF i (p :: rest) =
      ((buildGo model temperature system_prompt readF (i + 1) rest).1,
       (buildGo model temperature system_prompt readF (i + 1) rest).2 + 1) := by
  simp [buildGo, h]

theorem buildGo_cons_some (model : String) (temperature : Rat) (system_prompt : String)
    (readF : String → Option String) (i : Nat) (p : String) (rest : List String)
    (c : String) (h : readF p = some c) :
    buildGo model temperature system_prompt readF i (p :: rest) =
      (create_request_object model temperature system_prompt (format05 i) c ::
         (buildGo model temperature system_prompt readF (i + 1) rest).1,
       (buildGo model temperature system_prompt readF (i + 1) rest).2) := by
  simp [buildGo, h]

theorem buildGo_characterization (model : String) (temperature : Rat) (system_prompt : String)
    (readF : String → Option String) :
    ∀ (i : Nat) (paths : List String),
    (buildGo model temperature system_prompt readF i paths).1 =
      (List.enumFrom i paths).filterMap
        (fun jp => (readF jp.2).map
          (fun c => create_request_object model temperature system_prompt (format05 jp.1) c)) ∧
    (buildGo model temperature system_prompt readF i paths).2 =
      paths.countP (fun p => (readF p).isNone)
  | _, [] => ⟨rfl, rfl⟩
  | i, p :: rest => by
    have ih := buildGo_characterization model temperature system_prompt readF (i + 1) rest
    cases hread : readF p with
    | none =>
      rw [buildGo_cons_none model temperature system_prompt readF i p rest hread]
      refine ⟨?_, by simp [List.countP_cons, hread, ih.2]⟩
      simp only [List.enumFrom_cons, List.filterMap_cons, hread, Option.map_none]
      exact ih.1
    | some c =>
      rw [buildGo_cons_some model temperature system_prompt readF i p rest c hread]
      exact ⟨by simp [List.enumFrom_cons, List.filterMap_cons, hread, ih.1],
             by simp [List.countP_cons, hread, ih.2]⟩

/-- C6 (confirmed): `build` over the ordered discovered files with their
read results assigns the file at 1-based position `i` (counted over all
discovered files, so an unreadable file leaves a gap) the custom id
`format05 i` — the decimal digits of `i` zero-padded to five — skips every
unreadable file while counting it, and keeps the discovery order: the
requests are exactly the position-enumerated readable files, in order, and
the skip count is the number of unreadable files. -/
theorem builder_custom_ids (model : String) (temperature : Rat) (system_prompt : String)
    (readF : String → Option String) (paths : List String) :
    (buildGo model temperature system_prompt readF 1 paths).1 =
      (List.enumFrom 1 paths).filterMap
        (fun jp => (readF jp.2).map
          (fun c => create_request_object model temperature system_prompt (format05 jp.1) c)) ∧
    (buildGo model temperature system_prompt readF 1 paths).2 =
      paths.countP (fun p => (readF p).isNone) :=
  buildGo_characterization model temperature system_prompt readF 1 paths

theorem save_jsonl_file_nil (L : Limits) (base : String) :
    save_jsonl_file L [] base = [] := rfl

theorem generate_jsonl_eq_nil_iff (env : GenEnv) (args : GenArgs) :
    generate_jsonl env args = [] ↔
      save_jsonl_file defaultLimits
        (buildGo args.model args.temperature args.system_prompt env.readF 1
          (find_input_files env.walk (args.extensions.map normalizeExt))).1 args.name = [] := by
  unfold generate_jsonl
  by_cases h1 : (find_input_files env.walk (args.extensions.map normalizeExt)).isEmpty
  · have hfe := List.isEmpty_iff.mp h1
    rw [hfe]
    simp [h1, hfe, buildGo, save_jsonl_file_nil]
  · by_cases h2 : (buildGo args.model args.temperature args.system_prompt env.readF 1
        (find_input_files env.walk (args.extensions.map normalizeExt))).1.isEmpty
    · have hbe := List.isEmpty_iff.mp h2
      simp [h1, h2, hbe, save_jsonl_file_nil]
    · simp only [h1, h2, Bool.false_eq_true, if_false]
      exact List.map_eq_nil_iff

/-- C7 (corrected): the generator CLI exits 0 exactly when the input
directory exists, the temperature lies in [0.0, 2.0], and the run seals at
least one batch for writing — equivalently `generate_jsonl` returns a
non-empty list.  The truthiness test in `main` counts a sealed batch even
when its physical write failed, so "at least one batch sealed", not "at
least one file produced", is the precise condition; exits are 1 when the
directory is missing, the temperature is out of range, no file matches the
extensions, or every matched file is unreadable. -/
theorem cli_exit_code (env : GenEnv) (args : GenArgs) :
    mainExit env args = 0 ↔
      env.dirExists = true ∧ 0 ≤ args.temperature ∧ args.temperature ≤ 2 ∧
      save_jsonl_file defaultLimits
        (buildGo args.model args.temperature args.system_prompt env.readF 1
          (find_input_files env.walk (args.extensions.map normalizeExt))).1 args.name ≠ [] := by
  constructor
  · intro h0
    by_cases hd : env.dirExists = true
    · by_cases ht : 0 ≤ args.temperature ∧ args.temperature ≤ 2
      · refine ⟨hd, ht.1, ht.2, fun hnil => ?_⟩
        have hg : generate_jsonl env args = [] :=
          (generate_jsonl_eq_nil_iff env args).mpr hnil
        rw [mainExit] at h0
        simp [hd, ht, hg] at h0
      · rw [mainExit] at h0
        simp [hd, ht] at h0
    · rw [mainExit] at h0
      simp [hd] at h0
  · rintro ⟨hd, ht1, ht2, hsave⟩
    have hg : generate_jsonl env args ≠ [] :=
      fun h => hsave ((generate_jsonl_eq_nil_iff env args).mp h)
    rw [mainExit]
    simp [hd, ht1, ht2, List.isEmpty_iff, hg]

set_option maxRecDepth 8000 in
/-- C7 counterexample: the input directory exists, one file matches and is
readable, the temperature is valid, but the single output write fails —
`_write_jsonl_file` returns the Python `None`, `save_jsonl_file` collects
it, the returned list `[None]` is truthy, and `main` exits 0 although no
output file was produced; the claim requires exit 1 here. -/
theorem cli_exit_code_cex :
    mainExit
        (GenEnv.mk true ["d/a.txt"] (fun _ => some "hello") (fun _ => false))
        (GenArgs.mk "m" 1 "s" ["txt"] "batch") = 0 ∧
    generate_jsonl
        (GenEnv.mk true ["d/a.txt"] (fun _ => some "hello") (fun _ => false))
        (GenArgs.mk "m" 1 "s" ["txt"] "batch") = [none] :=
  ⟨by decide, by decide⟩

theorem charEqOfToNat {a b : Char} (h : a.toNat = b.toNat) : a = b :=
  Char.ext (UInt32.ext h)

theorem charListLe_total : ∀ (a b : List Char), charListLe a b = true ∨ charListLe b a = true
  | [], _ => Or.inl rfl
  | _ :: _, [] => Or.inr rfl
  | a :: as, b :: bs => by
    by_cases h1 : a.toNat < b.toNat
    · exact Or.inl (by simp [charListLe, h1])
    · by_cases h2 : b.toNat < a.toNat
      · exact Or.inr (by simp [charListLe, h2])
      · rcases charListLe_total as bs with h | h
        · exact Or.inl (by simp [charListLe, h1, h2, h])
        · exact Or.inr (by simp [charListLe, h1, h2, h])

theorem charListLe_trans : ∀ (a b c : List Char),
    charListLe a b = true → charListLe b c = true → charListLe a c = true
  | [], _, _, _, _ => rfl
  | _ :: _, [], _, h1, _ => by simp [charListLe] at h1
  | _ :: _, _ :: _, [], _, h2 => by simp [charListLe] at h2
  | a :: as, b :: bs, c :: cs, h1, h2 => by
    simp only [charListLe] at h1 h2 ⊢
    by_cases hab : a.toNat < b.toNat
    · by_cases hbc : b.toNat < c.toNat
      · rw [if_pos (by omega)]
      · by_cases hcb : c.toNat < b.toNat
        · rw [if_neg hbc, if_pos hcb] at h2
          exact absurd h2 (by simp)
        · rw [if_pos (by omega)]
    · by_cases hba : b.toNat < a.toNat
      · rw [if_neg hab, if_pos hba] at h1
        exact absurd h1 (by simp)
      · rw [if_neg hab, if_neg hba] at h1
        by_cases hbc : b.toNat < c.toNat
        · rw [if_pos (by omega)]
        · by_cases hcb : c.toNat < b.toNat
          · rw [if_neg hbc, if_pos hcb] at h2
            exact absurd h2 (by simp)
          · rw [if_neg hbc, if_neg hcb] at h2
            rw [if_neg (by omega), if_neg (by omega)]
            exact charListLe_trans as bs cs h1 h2

theorem charListLe_antisymm : ∀ (a b : List Char),
    charListLe a b = true → charListLe b a = true → a = b
  | [], [], _, _ => rfl
  | [], _ :: _, _, h2 => by simp [charListLe] at h2
  | _ :: _, [], h1, _ => by simp [charListLe] at h1
  | a :: as, b :: bs, h1, h2 => by
    simp only [charListLe] at h1 h2
    by_cases hab : a.toNat < b.toNat
    · rw [if_neg (by omega), if_pos hab] at h2
      exact absurd h2 (by simp)
    · by_cases hba : b.toNat < a.toNat
      · rw [if_neg hab, if_pos hba] at h1
        exact absurd h1 (by simp)
      · rw [if_neg hab, if_neg hba] at h1
        rw [if_neg hba, if_neg hab] at h2
        rw [charEqOfToNat (show a.toNat = b.toNat by omega),
          charListLe_antisymm as bs h1 h2]

instance pyLeTotal : IsTotal String pyLe :=
  ⟨fun a b => charListLe_total a.data b.data⟩

instance pyLeTrans : IsTrans String pyLe :=
  ⟨fun a b c => charListLe_trans a.data b.data c.data⟩

instance pyLeAntisymm : IsAntisymm String pyLe :=
  ⟨fun a b h1 h2 => String.ext (charListLe_antisymm a.data b.data h1 h2)⟩

/-- C9 (confirmed): the build-then-split pipeline is a deterministic
function of the directory contents and the arguments.  The only
platform-dependent ingredient, the `os.walk` enumeration order, is erased
by the lexicographic sort in `find_input_files`: two runs whose walks
enumerate the same files in any two orders, over the same file contents
and the same model, temperature, prompt, extensions and name, produce
byte-identical output files — regardless of the write oracles and of the
directory flags, which the pipeline output does not consult. -/
theorem pipeline_deterministic (walk1 walk2 : List String)
    (contentF : String → Option String) (writeOk1 writeOk2 : String → Bool)
    (dir1 dir2 : Bool) (args : GenArgs) (hperm : walk1.Perm walk2) :
    pipelineFiles (GenEnv.mk dir1 walk1 contentF writeOk1) args =
      pipelineFiles (GenEnv.mk dir2 walk2 contentF writeOk2) args := by
  have hfind : find_input_files walk1 (args.extensions.map normalizeExt) =
      find_input_files walk2 (args.extensions.map normalizeExt) := by
    refine List.eq_of_perm_of_sorted (r := pyLe) ?_
      (List.sorted_insertionSort pyLe _) (List.sorted_insertionSort pyLe _)
    exact (List.perm_insertionSort pyLe _).trans
      ((hperm.filter _).trans (List.perm_insertionSort pyLe _).symm)
  simp only [pipelineFiles, hfind]

/-- Witness for C9: two enumeration orders of the same two files give the
same output files. -/
theorem pipeline_deterministic_witness :
    pipelineFiles
        (GenEnv.mk true ["d/b.txt", "d/a.txt"]
          (fun p => if p = "d/a.txt" then some "A" else some "B") (fun _ => true))
        (GenArgs.mk "m" 1 "s" ["txt"] "batch") =
      pipelineFiles
        (GenEnv.mk true ["d/a.txt", "d/b.txt"]
          (fun p => if p = "d/a.txt" then some "A" else some "B") (fun _ => false))
        (GenArgs.mk "m" 1 "s" ["txt"] "batch") :=
  pipeline_deterministic ["d/b.txt", "d/a.txt"] ["d/a.txt", "d/b.txt"]
    (fun p => if p = "d/a.txt" then some "A" else some "B")
    (fun _ => true) (fun _ => false) true true
    (GenArgs.mk "m" 1 "s" ["txt"] "batch")
    (List.Perm.swap "d/a.txt" "d/b.txt" [])

/-- C8 (corrected, and restricted to records that are JSON objects, since
any other record aborts the script before writing): for each record the
extractor writes one file, named by the record's custom id, whose JSON
content is — the parsed value whenever the located content string parses
as JSON to a value other than `null`; the object holding the raw string
under `"content"` when the parse fails or yields `null` (the code cannot
distinguish the two); the entire original record when no known response
shape yields a content; and on the round-trip example the produced file is
`00001.json` holding the object with `"content": "hi"`. -/
theorem extractor_content_cases (fields : List (String × Json)) (s : String) :
    (locatedRaw (Json.obj fields) = Json.str s →
      ((∀ v : Json, pyLoads s = some v → v ≠ Json.null →
          writtenValue (Json.obj fields) = v) ∧
       (pyLoads s = none →
          writtenValue (Json.obj fields) = Json.obj [("content", Json.str s)]) ∧
       (pyLoads s = some Json.null →
          writtenValue (Json.obj fields) = Json.obj [("content", Json.str s)]))) ∧
    (locatedRaw (Json.obj fields) = Json.null →
      writtenValue (Json.obj fields) = Json.obj fields) ∧
    processRecord 1 (Json.obj
        [("custom_id", Json.str "00001"),
         ("response", Json.obj [("body", Json.obj [("choices", Json.arr
           [Json.obj [("message", Json.obj [("content", Json.str "hi")])]])])])]) =
      some ("00001.json", Json.obj [("content", Json.str "hi")]) := by
  refine ⟨?_, ?_, rfl⟩
  · intro hraw
    have hext : extract_content_from_record (Json.obj fields) =
        ((pyLoads s).getD Json.null, some s) := by
      rw [extract_content_from_record, hraw]
    refine ⟨?_, ?_, ?_⟩
    · intro v hv hvn
      rw [writtenValue, hext]
      simp [hv, hvn]
    · intro hv
      rw [writtenValue, hext]
      simp [hv]
    · intro hv
      rw [writtenValue, hext]
      simp [hv]
  · intro hraw
    have hext : extract_content_from_record (Json.obj fields) = (Json.null, none) := by
      rw [extract_content_from_record, hraw]
    rw [writtenValue, hext]
    simp

/-- Witness for C8: the example record locates the content string `"hi"`,
which does not parse as JSON, so the written value wraps it. -/
theorem extractor_content_cases_witness :
    pyLoads "hi" = none ∧
    writtenValue (Json.obj
        [("custom_id", Json.str "00001"),
         ("response", Json.obj [("body", Json.obj [("choices", Json.arr
           [Json.obj [("message", Json.obj [("content", Json.str "hi")])]])])])]) =
      Json.obj [("content", Json.str "hi")] :=
  ⟨rfl,
   ((extractor_content_cases
       [("custom_id", Json.str "00001"),
        ("response", Json.obj [("body", Json.obj [("choices", Json.arr
          [Json.obj [("message", Json.obj [("content", Json.str "hi")])]])])])]
       "hi").1 rfl).2.1 rfl⟩

/-- C8 counterexample: the located content string `"null"` parses as JSON
(to `null`), so by the claim the file must hold the parsed value `null`;
the code instead writes the object wrapping the raw string, because
`json.loads` returning `None` is indistinguishable from the `except`
branch.  And the claim quantifies over every successfully parsed response
record, but a record that is not a JSON object (here the string `"x"`)
makes `record.get` raise, so no file is written at all. -/
theorem extractor_content_cases_cex :
    pyLoads "null" = some Json.null ∧
    processRecord 1 (Json.obj [("custom_id", Json.str "n1"),
        ("choices", Json.arr [Json.obj [("message",
          Json.obj [("content", Json.str "null")])]])]) =
      some ("n1.json", Json.obj [("content", Json.str "null")]) ∧
    Json.obj [("content", Json.str "null")] ≠ Json.null ∧
    processRecord 1 (Json.str "x") = none :=
  ⟨rfl, rfl, fun h => Json.noConfusion h, rfl⟩

/-- C10 (corrected to lines parsing as JSON objects — a line parsing to
any other JSON value makes `record.get` raise an uncaught AttributeError,
aborting the script instead of producing a filename): every object record
is written, never skipped, under the name chosen by
`record.get("custom_id") or record.get("id") or f"row line:06d"` coerced
with `str` and suffixed `.json`: str() of the `custom_id` value when it is
truthy, else str() of the `id` value when that is truthy, else `row`
followed by the line number zero-padded to six digits. -/
theorem extractor_filename_choice (fields : List (String × Json)) (lineNo : Nat) :
    (processRecord lineNo (Json.obj fields) =
      some (chosenName lineNo (Json.obj fields), writtenValue (Json.obj fields))) ∧
    (pyTruthy ((dictLookup (Json.obj fields) "custom_id").getD Json.null) = true →
      chosenName lineNo (Json.obj fields) =
        pyStr ((dictLookup (Json.obj fields) "custom_id").getD Json.null) ++ ".json") ∧
    (pyTruthy ((dictLookup (Json.obj fields) "custom_id").getD Json.null) = false →
     pyTruthy ((dictLookup (Json.obj fields) "id").getD Json.null) = true →
      chosenName lineNo (Json.obj fields) =
        pyStr ((dictLookup (Json.obj fields) "id").getD Json.null) ++ ".json") ∧
    (pyTruthy ((dictLookup (Json.obj fields) "custom_id").getD Json.null) = false →
     pyTruthy ((dictLookup (Json.obj fields) "id").getD Json.null) = false →
      chosenName lineNo (Json.obj fields) = "row" ++ format06 lineNo ++ ".json") := by
  refine ⟨rfl, ?_, ?_, ?_⟩
  · intro h1
    rw [chosenName]
    simp [h1]
  · intro h1 h2
    rw [chosenName]
    simp [h1, h2]
  · intro h1 h2
    rw [chosenName]
    simp [h1, h2, pyStr]

/-- Witness for C10: a record with neither `custom_id` nor `id` still gets
written, under the row-numbered fallback name. -/
theorem extractor_filename_choice_witness :
    chosenName 7 (Json.obj [("a", Json.int 1)]) = "row" ++ format06 7 ++ ".json" ∧
    processRecord 7 (Json.obj [("a", Json.int 1)]) =
      some (chosenName 7 (Json.obj [("a", Json.int 1)]),
            writtenValue (Json.obj [("a", Json.int 1)])) :=
  ⟨(extractor_filename_choice [("a", Json.int 1)] 7).2.2.2 rfl rfl,
   (extractor_filename_choice [("a", Json.int 1)] 7).1⟩

/-- C10 counterexample: the line `[1]` is non-empty and parses as JSON,
but the record is a list, `record.get` raises, the script aborts, and no
output filename is produced — the claim promised one for every line that
parses as JSON. -/
theorem extractor_filename_choice_cex :
    pyLoads "[1]" = some (Json.arr [Json.int 1]) ∧
    processRecord 3 (Json.arr [Json.int 1]) = none :=
  ⟨rfl, rfl⟩
